import Mathlib

/-!
Shallow embedding of the esp32 mini-game controller (src/main.py) and
verification of its specified properties.

Conventions of the embedding:
* machine state is passed explicitly; each Python method becomes a Lean
  function from the old state to the new state (plus its observable outputs);
* the cooperative scheduler is modelled sequentially: a challenge protocol is
  a function of the scripted inputs it would observe at its suspension points;
* timestamps are rationals (`ℚ`), Python floats used only for subtraction and
  comparison against 0.5;
* a `get()` on an empty queue suspends, modelled as `none` / an error value;
  a Python `IndexError` is modelled as `Except.error "IndexError"`.
-/

set_option autoImplicit false

/-- Outcome signal put on the hand-off queue: `transfer_to_win` enqueues
`game_win()` and `transfer_to_lose` enqueues `game_over()`; we only track
which of the two was enqueued. -/
inductive Signal where
  | win
  | lose
deriving DecidableEq, Repr

/-- The four physical buttons of the device (src/main.py lines 172-175). -/
inductive ButtonId where
  | upLeft
  | upRight
  | downLeft
  | downRight
deriving DecidableEq, Repr

/-- Label attached to a recorded timestamp by `record_press_time` /
`record_release_time` (src/main.py lines 303-307 and 361-365). -/
inductive RecLabel where
  | press
  | release
deriving DecidableEq, Repr

/-- State of `SimpleQueue` (src/main.py lines 8-30): the backing list
`_queue` and the `asyncio.Event` flag `_ev`. -/
structure SimpleQueue (α : Type) where
  _queue : List α
  _ev : Bool

/-- A freshly constructed `SimpleQueue` (lines 9-11): empty list, event clear. -/
def SimpleQueue.mk0 (α : Type) : SimpleQueue α := ⟨[], false⟩

/-- Lines 13-14: number of queued items. -/
def SimpleQueue.qsize {α : Type} (q : SimpleQueue α) : Nat := q._queue.length

/-- Lines 16-17: emptiness query. -/
def SimpleQueue.isEmptyQ {α : Type} (q : SimpleQueue α) : Bool := q._queue.length == 0

/-- Lines 19-21: append the item and set the event flag. -/
def SimpleQueue.put {α : Type} (q : SimpleQueue α) (item : α) : SimpleQueue α :=
  { _queue := q._queue ++ [item], _ev := true }

/-- Lines 23-30: while empty the caller suspends (modelled as `none`);
otherwise pop the head, clearing the event flag when the queue drains. -/
def SimpleQueue.get {α : Type} (q : SimpleQueue α) : Option (α × SimpleQueue α) :=
  match q._queue with
  | [] => none
  | item :: rest =>
      some (item, { _queue := rest, _ev := if rest.isEmpty then false else q._ev })

/-- Repeatedly call `get` up to `n` times, collecting the delivered items in
order; stops early if a `get` would suspend. -/
def SimpleQueue.drain {α : Type} : Nat → SimpleQueue α → List α × SimpleQueue α
  | 0, q => ([], q)
  | n + 1, q =>
      match q.get with
      | none => ([], q)
      | some (item, q1) =>
          let rest := SimpleQueue.drain n q1
          (item :: rest.1, rest.2)

/-- State of `AsyncLooping` (src/main.py lines 33-48). `loop_runing` and
`loop_task` are the Python attributes; `next_task_id` and `outstanding` are
ghost instrumentation of the runtime: `asyncio.create_task` hands out a fresh
task id and adds it to the set of live (not yet awaited-to-completion)
activities, and awaiting a task removes it once the task exits. -/
structure AsyncLooping where
  loop_runing : Bool
  loop_task : Option Nat
  next_task_id : Nat
  outstanding : List Nat
deriving DecidableEq, Repr

/-- Lines 34-36: freshly constructed instance, not running, no task. -/
def AsyncLooping.mk0 : AsyncLooping := ⟨false, none, 0, []⟩

/-- Lines 41-43: `start` sets the running flag and unconditionally overwrites
`loop_task` with a freshly spawned activity. There is no guard against an
already-running instance. -/
def AsyncLooping.start (s : AsyncLooping) : AsyncLooping :=
  { s with
    loop_runing := true
    loop_task := some s.next_task_id
    outstanding := s.outstanding ++ [s.next_task_id]
    next_task_id := s.next_task_id + 1 }

/-- Lines 45-48: `stop` clears the running flag and, when a task handle is
present, awaits it (the loop body observes the cleared flag and exits, so the
awaited activity leaves the outstanding set). With no handle it just returns. -/
def AsyncLooping.stop (s : AsyncLooping) : AsyncLooping :=
  let s1 := { s with loop_runing := false }
  match s1.loop_task with
  | none => s1
  | some t => { s1 with outstanding := s1.outstanding.erase t }

/-- C3: the hand-off queue is FIFO with single delivery. After `put a`,
`put b`, `put c` on a fresh `SimpleQueue`, three successive `get()` calls
deliver exactly `[a, b, c]` in that order and leave the queue empty, so each
of the three enqueued occurrences is delivered by exactly one `get()` call
and no `get()` returns an item twice. -/
theorem simpleQueue_fifo_single_delivery (α : Type) (a b c : α) :
    SimpleQueue.drain 3 ((((SimpleQueue.mk0 α).put a).put b).put c) =
      ([a, b, c], ⟨[], false⟩) := by
  rfl

/-- C10: `stop()` on an instance whose `loop_task` handle is still absent
returns without error, clears the running flag and changes nothing else
(the whole resulting state equals the old one with only `loop_runing`
cleared; in particular no task is awaited). -/
theorem stop_without_start (s : AsyncLooping) (h : s.loop_task = none) :
    s.stop = { s with loop_runing := false } := by
  simp [AsyncLooping.stop, h]

/-- Witness for C10 at a concrete never-started instance. -/
theorem stop_without_start_witness :
    AsyncLooping.mk0.loop_task = none ∧
      AsyncLooping.mk0.stop = { AsyncLooping.mk0 with loop_runing := false } :=
  ⟨rfl, stop_without_start AsyncLooping.mk0 rfl⟩

/-- C8 counterexample: `start()` is not guarded. Calling `start()` twice on a
fresh instance without an intervening `stop()` goes through and leaves TWO
outstanding spawned activities, refuting the claim that a second `start()` is
disallowed so that at most one outstanding activity exists. -/
theorem start_twice_not_guarded_cex :
    ¬ (AsyncLooping.mk0.start.start).outstanding.length ≤ 1 := by
  decide

/-- C8 amended: `start()` has no assertion or guard; a second `start()`
without an intervening `stop()` succeeds, overwrites `loop_task` with the
newly spawned activity, and leaves the first spawned activity outstanding —
the instance then has two outstanding spawned activities (the first one is
leaked: no handle to it remains). -/
theorem start_twice_leaks (s : AsyncLooping) :
    (s.start.start).outstanding = s.outstanding ++ [s.next_task_id, s.next_task_id + 1] ∧
    (s.start.start).loop_task = some (s.next_task_id + 1) ∧
    (s.start.start).loop_runing = true := by
  simp [AsyncLooping.start]

/-- Long-code loop of the `morse` challenge (src/main.py lines 289-334),
modelled sequentially. Each element of the script is one iteration of the
`for long, b in zip(code, ...)` loop in the scenario relevant to the claim:
the current button is pressed and released cleanly, recording the timestamp
pair `(press_time, release_time)`. `tq` is the shared `transfer_queue`
contents (only this protocol writes to it during the run). Per iteration the
code first busy-waits until two records or a transfer exist; on a non-empty
transfer queue it returns (line 316-318); otherwise it takes the pair,
computes `hold_time = abs(release_time - press_time)` (line 326), classifies
`is_hold_long = hold_time > 0.5` (line 327) and on mismatch `long ^
is_hold_long` awaits `transfer_to_lose()` (line 330) — after which the `for`
loop nevertheless proceeds; after the loop, `transfer_to_win()` runs
unconditionally (line 334). The result is the final transfer-queue contents. -/
def morseLongLoop : List Signal → List (Bool × ℚ × ℚ) → List Signal
  | tq, [] => tq ++ [Signal.win]
  | tq, (long, press_time, release_time) :: rest =>
      if tq.isEmpty then
        let hold_time := |release_time - press_time|
        let is_hold_long : Bool := decide (hold_time > 1 / 2)
        if long != is_hold_long then morseLongLoop (tq ++ [Signal.lose]) rest
        else morseLongLoop tq rest
      else tq

/-- Post-wait logic of the `pitch` challenge, mode 0 (src/main.py lines
369-388). The busy-wait of line 369-370 has just exited, so `time_queue.length
≥ 2 ∨ transfer_queue ≠ []`. The code then, in this order: reads
`time_queue._queue[0]` (line 372 — an `IndexError` if the timing queue is
empty), discards a stray leading release record (line 374), returns if the
transfer queue is non-empty (lines 376-377), takes the press/release pair
(lines 379-380), computes the RAW signed difference `hold_time = release_time
- press_time` (line 381), classifies `is_hold_long = hold_time > 0.5` (line
382) and enqueues LOSE on mismatch with `long`, WIN on match (lines 383-388).
The result is the final transfer-queue contents, or the raised error. -/
def pitchAfterWait (long : Bool) (time_queue : List (ℚ × RecLabel))
    (transfer_queue : List Signal) : Except String (List Signal) :=
  match time_queue with
  | [] => Except.error "IndexError"
  | first :: _ =>
      let tq1 := if first.2 == RecLabel.release then time_queue.tail else time_queue
      if transfer_queue.isEmpty then
        match tq1 with
        | (press_time, _) :: (release_time, _) :: _ =>
            let hold_time := release_time - press_time
            let is_hold_long : Bool := decide (hold_time > 1 / 2)
            if long != is_hold_long then Except.ok (transfer_queue ++ [Signal.lose])
            else Except.ok (transfer_queue ++ [Signal.win])
        | _ => Except.error "blocked"
      else Except.ok transfer_queue


/-- The two `RecLabel` constructors compare unequal under `==`. -/
theorem press_beq_release_eq_false : (RecLabel.press == RecLabel.release) = false := rfl

/-- C1 (code bug): in the long-code branch of `morse`, a mismatching hold on
the LAST symbol enqueues LOSE and then — because the `for` loop simply ends
and line 334 runs unconditionally — additionally enqueues WIN, so one run of
the protocol delivers TWO outcomes to the hand-off queue. Failing input:
required classes `[long, long, long, long]` with hold durations
`[1s, 1s, 1s, 0.3s]` (mismatch at the fourth symbol). Second conjunct: the
same mismatch at the FIRST symbol is caught by the transfer-queue check of
the next iteration and delivers the single LOSE the claim describes, so the
double delivery is specific to a mismatch on the final symbol. -/
theorem morse_long_mismatch_double_outcome :
    morseLongLoop [] [(true, 0, 1), (true, 0, 1), (true, 0, 1), (true, 0, 3 / 10)] =
      [Signal.lose, Signal.win] ∧
    morseLongLoop [] [(true, 0, 3 / 10), (true, 0, 1), (true, 0, 1), (true, 0, 1)] =
      [Signal.lose] := by
  constructor <;> norm_num [morseLongLoop, abs_of_nonneg]

/-- C2 (code bug): in `pitch` mode 0, when a pre-emptive transfer arrives
while the per-challenge timing queue is still empty, the busy-wait exits and
line 372 immediately evaluates `time_queue._queue[0]` — an out-of-bounds
access on the empty list — BEFORE the transfer check of line 376, so the
protocol raises `IndexError` instead of detecting the transfer and returning
gracefully. (The `morse` protocol performs the two checks in the opposite,
safe order, lines 316-320.) -/
theorem pitch_preempt_index_error (long : Bool) :
    pitchAfterWait long [] [Signal.lose] = Except.error "IndexError" :=
  rfl

/-- C6: in `pitch` mode 0 the hold duration is the RAW signed difference
`release_time - press_time` (no absolute value) and the input is classified
long exactly when that difference exceeds 0.5 s. With requirement `long = 1`
the outcome is WIN precisely when `release_time - press_time > 0.5`; in
particular a 0.6 s hold wins, a 0.3 s hold loses, and a pair whose release
timestamp precedes its press (negative hold, here −0.2 s) is never classified
long and loses. -/
theorem pitch_raw_signed_hold (press_time release_time : ℚ) :
    pitchAfterWait true [(press_time, RecLabel.press), (release_time, RecLabel.release)] [] =
      Except.ok [if release_time - press_time > 1 / 2 then Signal.win else Signal.lose] ∧
    pitchAfterWait true [(0, RecLabel.press), (3 / 5, RecLabel.release)] [] =
      Except.ok [Signal.win] ∧
    pitchAfterWait true [(0, RecLabel.press), (3 / 10, RecLabel.release)] [] =
      Except.ok [Signal.lose] ∧
    pitchAfterWait true [(0, RecLabel.press), (-(1 / 5), RecLabel.release)] [] =
      Except.ok [Signal.lose] := by
  refine ⟨?_, ?_, ?_, ?_⟩
  · by_cases h : release_time - press_time > 1 / 2
    · rw [if_pos h]
      simp [pitchAfterWait, press_beq_release_eq_false, h]
      linarith
    · rw [if_neg h]
      simp [pitchAfterWait, press_beq_release_eq_false, h]
      linarith
  · norm_num [pitchAfterWait, press_beq_release_eq_false]
  · norm_num [pitchAfterWait, press_beq_release_eq_false]
  · norm_num [pitchAfterWait, press_beq_release_eq_false]

/-- One rendering event of the TM1637 display: either `numbers(minute,
second)` or a blank `write([0,0,0,0])`. -/
inductive Render where
  | nums (minute second : Int)
  | blank
deriving DecidableEq, Repr

/-- State of `DigitalDisplay` (src/main.py lines 117-166).
`has_timeup_callback` records whether `set_timeup_callback` installed a
callback (`timeup_callback is not None`); `loop_runing` is inherited from
`AsyncLooping` (the spawned-task ghost fields are not needed here). -/
structure DigitalDisplay where
  minute : Int
  second : Int
  has_timeup_callback : Bool
  is_pause : Bool
  is_show : Bool
  loop_runing : Bool
deriving DecidableEq, Repr

/-- Lines 118-125: freshly constructed display. -/
def DigitalDisplay.mk0 : DigitalDisplay :=
  { minute := 0, second := 0, has_timeup_callback := false,
    is_pause := false, is_show := true, loop_runing := false }

/-- Lines 127-128: `pause` sets the pause flag; nothing ever clears it. -/
def DigitalDisplay.pause (d : DigitalDisplay) : DigitalDisplay :=
  { d with is_pause := true }

/-- Lines 130-131: install a time-up callback. -/
def DigitalDisplay.set_timeup_callback (d : DigitalDisplay) : DigitalDisplay :=
  { d with has_timeup_callback := true }

/-- Lines 162-166: `set_time(second, minute=0)` via Python `divmod` (the
callers pass non-negative ints, so Nat division models `divmod`). -/
def DigitalDisplay.set_time (d : DigitalDisplay) (secondArg minuteArg : Nat) : DigitalDisplay :=
  { d with
    second := ((secondArg % 60 : Nat) : Int)
    minute := ((minuteArg + secondArg / 60 : Nat) : Int) }

/-- `start` from `AsyncLooping` (line 41-43) as it acts on the display state:
mark the loop running. -/
def DigitalDisplay.start (d : DigitalDisplay) : DigitalDisplay :=
  { d with loop_runing := true }

/-- One iteration of the `while self.loop_runing` body (lines 134-160),
entered with the running flag true. Returns the new state, the render
performed this tick, and whether the time-up callback was invoked.
Paused branch (lines 135-142): toggle `is_show` and render either the frozen
`minute:second` pair or a blank display. Running branch (lines 143-160):
decrement `second`; on underflow reset to 59 and borrow from `minute`; clamp
`minute` at 0; render the pair; after the 1 s sleep, if both are zero clear
the running flag and invoke the callback when one is installed. -/
def DigitalDisplay.tick (d : DigitalDisplay) : DigitalDisplay × Render × Bool :=
  if d.is_pause then
    let shown := !d.is_show
    ({ d with is_show := shown },
     if shown then Render.nums d.minute d.second else Render.blank,
     false)
  else
    let s0 := d.second - 1
    let m1 := if s0 < 0 then d.minute - 1 else d.minute
    let s1 := if s0 < 0 then (59 : Int) else s0
    let m2 := if m1 < 0 then 0 else m1
    let timeup : Bool := decide (s1 = 0) && decide (m2 = 0)
    ({ d with minute := m2, second := s1, loop_runing := d.loop_runing && !timeup },
     Render.nums m2 s1,
     timeup && d.has_timeup_callback)

/-- The `while self.loop_runing` loop (lines 134-160), run for at most `fuel`
iterations: the list of renders in order, the number of time-up callback
invocations, and the final state. -/
def DigitalDisplay.loop : Nat → DigitalDisplay → List Render × Nat × DigitalDisplay
  | 0, d => ([], 0, d)
  | fuel + 1, d =>
      if d.loop_runing then
        let step := d.tick
        let rest := DigitalDisplay.loop fuel step.1
        (step.2.1 :: rest.1, (if step.2.2 then 1 else 0) + rest.2.1, rest.2.2)
      else ([], 0, d)

/-- The render sequence of an uninterrupted countdown that has `n` seconds
represented before the tick: `n-1`, `n-2`, …, `1`, `0`, each shown as a
`minute:second` pair. -/
def descRenders : Nat → List Render
  | 0 => []
  | v + 1 => Render.nums ((v / 60 : Nat) : Int) ((v % 60 : Nat) : Int) :: descRenders v

/-- Core run lemma for the countdown: from any running, unpaused state with a
callback installed that represents `v ≥ 1` seconds (minute/second in range),
the loop performs exactly `v` ticks rendering `v-1, v-2, …, 0`, invokes the
time-up callback exactly once, and ends stopped at 0:00 with all other fields
unchanged. -/
theorem display_countdown_run (v : Nat) (d : DigitalDisplay)
    (hrun : d.loop_runing = true) (hp : d.is_pause = false)
    (hcb : d.has_timeup_callback = true)
    (hm : 0 ≤ d.minute) (hs0 : 0 ≤ d.second) (hs60 : d.second < 60)
    (hv : 60 * d.minute + d.second = (v : Int)) (h1 : 1 ≤ v) :
    DigitalDisplay.loop v d =
      (descRenders v, 1, { d with minute := 0, second := 0, loop_runing := false }) := by
  induction v generalizing d with
  | zero => omega
  | succ w ih =>
    by_cases hs : d.second = 0
    · -- borrow: second underflows to 59, minute decremented
      have hm1 : 1 ≤ d.minute := by omega
      have htick : d.tick =
          ({ d with minute := d.minute - 1, second := 59, loop_runing := true },
           Render.nums (d.minute - 1) 59, false) := by
        have hneg : d.second - 1 < 0 := by omega
        have hclamp : ¬ (d.minute - 1 < 0) := by omega
        simp [DigitalDisplay.tick, hp, hneg, hclamp, hrun]
      have hw : 59 ≤ w := by omega
      have hrec := ih { d with minute := d.minute - 1, second := 59, loop_runing := true }
        rfl hp hcb (by simp; omega) (by norm_num) (by norm_num)
        (by simp; omega) (by omega)
      have hhead : Render.nums (d.minute - 1) 59 =
          Render.nums ((w / 60 : Nat) : Int) ((w % 60 : Nat) : Int) := by
        have : 60 * (d.minute - 1) + 59 = (w : Int) := by omega
        congr 1 <;> omega
      simp only [DigitalDisplay.loop, hrun, if_pos, htick]
      rw [hrec]
      simp only [descRenders]
      rw [hhead]
      simp
    · -- plain decrement
      have hs1 : 1 ≤ d.second := by omega
      by_cases hlast : w = 0
      · -- final tick: reaches 0:00, stops, callback fires once
        subst hlast
        have hm0 : d.minute = 0 := by omega
        have hsec1 : d.second = 1 := by omega
        have htick : d.tick =
            ({ d with minute := 0, second := 0, loop_runing := false },
             Render.nums 0 0, true) := by
          have hneg : ¬ (d.second - 1 < 0) := by omega
          simp [DigitalDisplay.tick, hp, hneg, hm0, hsec1, hrun, hcb]
        simp only [DigitalDisplay.loop, hrun, if_pos, htick]
        simp [descRenders]
      · have hw1 : 1 ≤ w := by omega
        have htick : d.tick =
            ({ d with minute := d.minute, second := d.second - 1, loop_runing := true },
             Render.nums d.minute (d.second - 1), false) := by
          have hneg : ¬ (d.second - 1 < 0) := by omega
          have hclamp : ¬ (d.minute < 0) := by omega
          simp [DigitalDisplay.tick, hp, hneg, hclamp, hrun]
          omega
        have hrec := ih { d with minute := d.minute, second := d.second - 1, loop_runing := true }
          rfl hp hcb (by simp; omega) (by simp; omega) (by simp; omega)
          (by simp; omega) (by omega)
        have hhead : Render.nums d.minute (d.second - 1) =
            Render.nums ((w / 60 : Nat) : Int) ((w % 60 : Nat) : Int) := by
          congr 1 <;> omega
        simp only [DigitalDisplay.loop, hrun, if_pos, htick]
        rw [hrec]
        simp only [descRenders]
        rw [hhead]
        simp

/-- The descending render list has the expected length. -/
theorem descRenders_length (n : Nat) : (descRenders n).length = n := by
  induction n with
  | zero => rfl
  | succ v ih => simp [descRenders, ih]

/-- The `i`-th render of the descending list represents `n - 1 - i` seconds. -/
theorem descRenders_get? (n : Nat) : ∀ i : Nat, i < n →
    (descRenders n).get? i =
      some (Render.nums (((n - 1 - i) / 60 : Nat) : Int) (((n - 1 - i) % 60 : Nat) : Int)) := by
  induction n with
  | zero => omega
  | succ v ih =>
    intro i hi
    cases i with
    | zero => simp [descRenders]
    | succ j =>
      have h2 : v + 1 - 1 - (j + 1) = v - 1 - j := by omega
      simp only [descRenders, List.get?_cons_succ, h2]
      exact ih j (by omega)

/-- The countdown exactly as `game()` launches it (src/main.py lines
395-398): install the time-up callback, `set_time(S)`, `start()`, and run the
loop to completion (`S` ticks suffice). -/
def countdownOut (S : Nat) : List Render × Nat × DigitalDisplay :=
  DigitalDisplay.loop S (((DigitalDisplay.mk0.set_timeup_callback).set_time S 0).start)

/-- C4: a countdown initialized to `S ≥ 1` seconds and started in running
mode renders, tick by tick, the pairs representing `S-1, S-2, …, 1, 0`
seconds — each render exactly 1 second less than the previous one, minute and
second always the non-negative canonical pair (casts from `Nat`) — and on
reaching 0:00 the loop terminates with the time-up callback invoked exactly
once. -/
theorem countdown_monotone_terminates (S : Nat) (hS : 1 ≤ S) :
    (countdownOut S).1 = descRenders S ∧
    (∀ i, i < S → (countdownOut S).1.get? i =
        some (Render.nums (((S - 1 - i) / 60 : Nat) : Int) (((S - 1 - i) % 60 : Nat) : Int))) ∧
    (countdownOut S).1.get? (S - 1) = some (Render.nums 0 0) ∧
    (countdownOut S).2.1 = 1 ∧
    (countdownOut S).2.2.loop_runing = false := by
  have hmain := display_countdown_run S (((DigitalDisplay.mk0.set_timeup_callback).set_time S 0).start)
    rfl rfl rfl
    (by show (0:Int) ≤ ((0 + S / 60 : Nat) : Int); omega)
    (by show (0:Int) ≤ ((S % 60 : Nat) : Int); omega)
    (by show ((S % 60 : Nat) : Int) < 60; omega)
    (by show 60 * ((0 + S / 60 : Nat) : Int) + ((S % 60 : Nat) : Int) = (S : Int); push_cast; omega)
    hS
  have h1 : (countdownOut S).1 = descRenders S := by
    unfold countdownOut
    rw [hmain]
  have h2 : ∀ i, i < S → (countdownOut S).1.get? i =
      some (Render.nums (((S - 1 - i) / 60 : Nat) : Int) (((S - 1 - i) % 60 : Nat) : Int)) := by
    intro i hi
    rw [h1]
    exact descRenders_get? S i hi
  refine ⟨h1, h2, ?_, ?_, ?_⟩
  · have hlastR := h2 (S - 1) (by omega)
    rw [hlastR]
    have e1 : S - 1 - (S - 1) = 0 := by omega
    rw [e1]
    norm_num
  · unfold countdownOut
    rw [hmain]
  · unfold countdownOut
    rw [hmain]

/-- Witness for C4 at the concrete duration `S = 3`. -/
theorem countdown_monotone_terminates_witness :
    1 ≤ 3 ∧
    ((countdownOut 3).1 = descRenders 3 ∧
     (∀ i, i < 3 → (countdownOut 3).1.get? i =
        some (Render.nums (((3 - 1 - i) / 60 : Nat) : Int) (((3 - 1 - i) % 60 : Nat) : Int))) ∧
     (countdownOut 3).1.get? (3 - 1) = some (Render.nums 0 0) ∧
     (countdownOut 3).2.1 = 1 ∧
     (countdownOut 3).2.2.loop_runing = false) :=
  ⟨by decide, countdown_monotone_terminates 3 (by decide)⟩

/-- C7: once `pause()` has set `is_pause`, every further loop iteration
leaves `minute` and `second` untouched for the remainder of the run (the
pause flag itself is never cleared by any operation, so this holds for the
display's lifetime), the time-up callback never fires, and the renders
alternate every tick (each tick sleeps 0.5 s) between a blank display and the
frozen `minute:second` pair, driven only by the `is_show` toggle. -/
theorem pause_freezes_display (d : DigitalDisplay) (n : Nat)
    (hp : d.is_pause = true) (hrun : d.loop_runing = true) :
    (DigitalDisplay.loop n d).2.2.minute = d.minute ∧
    (DigitalDisplay.loop n d).2.2.second = d.second ∧
    (DigitalDisplay.loop n d).2.2.is_pause = true ∧
    (DigitalDisplay.loop n d).2.2.loop_runing = true ∧
    (DigitalDisplay.loop n d).2.1 = 0 ∧
    (DigitalDisplay.loop n d).1.length = n ∧
    (∀ i, i < n → (DigitalDisplay.loop n d).1.get? i =
      some (if d.is_show == decide (i % 2 = 0) then Render.blank
            else Render.nums d.minute d.second)) := by
  induction n generalizing d with
  | zero =>
    refine ⟨rfl, rfl, hp, hrun, rfl, rfl, ?_⟩
    intro i hi
    omega
  | succ m ih =>
    have htick : d.tick = ({ d with is_show := !d.is_show },
        if !d.is_show then Render.nums d.minute d.second else Render.blank, false) := by
      simp [DigitalDisplay.tick, hp]
    have hrec := ih { d with is_show := !d.is_show } hp hrun
    rw [hrun] at hrec
    simp only [DigitalDisplay.loop, hrun, if_true, htick]
    obtain ⟨e1, e2, e3, e4, e5, e6, e7⟩ := hrec
    refine ⟨e1, e2, e3, e4, by simpa using e5, by simpa using e6, ?_⟩
    intro i hi
    cases i with
    | zero =>
      cases hshow : d.is_show <;> simp [hshow]
    | succ j =>
      have hj : j < m := by omega
      have hrecj := e7 j hj
      simp only [List.get?_cons_succ]
      rw [hrecj]
      have hpar : (decide ((j + 1) % 2 = 0)) = !(decide (j % 2 = 0)) := by
        by_cases h : j % 2 = 0
        · simp [h]
          omega
        · simp [h]
          omega
      rw [hpar]
      cases hshow : d.is_show <;> cases hx : decide (j % 2 = 0) <;> simp [hshow, hx]

/-- Witness for C7: a display set to 0:03, started and paused, ticked 4
times: digits frozen at 0:03, no callback, alternating blank/visible. -/
theorem pause_freezes_display_witness :
    ((DigitalDisplay.mk0.set_time 3 0).start.pause).is_pause = true ∧
    ((DigitalDisplay.mk0.set_time 3 0).start.pause).loop_runing = true ∧
    ((DigitalDisplay.loop 4 ((DigitalDisplay.mk0.set_time 3 0).start.pause)).2.2.minute =
        ((DigitalDisplay.mk0.set_time 3 0).start.pause).minute ∧
     (DigitalDisplay.loop 4 ((DigitalDisplay.mk0.set_time 3 0).start.pause)).2.2.second =
        ((DigitalDisplay.mk0.set_time 3 0).start.pause).second ∧
     (DigitalDisplay.loop 4 ((DigitalDisplay.mk0.set_time 3 0).start.pause)).2.2.is_pause = true ∧
     (DigitalDisplay.loop 4 ((DigitalDisplay.mk0.set_time 3 0).start.pause)).2.2.loop_runing = true ∧
     (DigitalDisplay.loop 4 ((DigitalDisplay.mk0.set_time 3 0).start.pause)).2.1 = 0 ∧
     (DigitalDisplay.loop 4 ((DigitalDisplay.mk0.set_time 3 0).start.pause)).1.length = 4 ∧
     (∀ i, i < 4 →
        (DigitalDisplay.loop 4 ((DigitalDisplay.mk0.set_time 3 0).start.pause)).1.get? i =
          some (if ((DigitalDisplay.mk0.set_time 3 0).start.pause).is_show == decide (i % 2 = 0)
                then Render.blank
                else Render.nums ((DigitalDisplay.mk0.set_time 3 0).start.pause).minute
                  ((DigitalDisplay.mk0.set_time 3 0).start.pause).second))) :=
  ⟨rfl, rfl, pause_freezes_display ((DigitalDisplay.mk0.set_time 3 0).start.pause) 4 rfl rfl⟩

/-- The fixed button order of the short-code branch of `morse`
(src/main.py lines 280-285). -/
def shortCodeOrder : List ButtonId :=
  [ButtonId.upLeft, ButtonId.downRight, ButtonId.upRight, ButtonId.downLeft]

/-- Short-code wiring of `morse` (src/main.py lines 277-286): every button is
bound to `transfer_to_lose` by `set_all_buttons_with`, then the button at
index `count = sum(code) - 1` of `shortCodeOrder` is rebound to
`transfer_to_win`. The result maps each button to the signal its press
callback would enqueue; `none` models the `IndexError` a Python list access
out of range would raise. -/
def morseShortWiring (code : List Nat) : Option (ButtonId → Signal) :=
  match shortCodeOrder.get? (code.sum - 1) with
  | none => none
  | some winner => some (fun b => if b = winner then Signal.win else Signal.lose)

/-- Tape generation of `morse` (src/main.py lines 271-272): `draws` are the
four draws of `random.randint(0, 1)` and `j` the draw of
`random.randint(0, 3)`; position `j` is then overwritten with 1. -/
def morseCodeGen (draws : List Nat) (j : Nat) : List Nat := draws.set j 1

/-- A list of naturals bounded by 1 has sum at most its length. -/
theorem sum_le_length_of_le_one : ∀ (l : List Nat), (∀ x ∈ l, x ≤ 1) → l.sum ≤ l.length := by
  intro l
  induction l with
  | nil => simp
  | cons a t ih =>
    intro h
    simp only [List.sum_cons, List.length_cons]
    have ha := h a (by simp)
    have ht := ih (fun x hx => h x (by simp [hx]))
    omega

/-- A list of naturals containing 1 has a positive sum. -/
theorem one_le_sum_of_one_mem : ∀ (l : List Nat), 1 ∈ l → 1 ≤ l.sum := by
  intro l
  induction l with
  | nil => simp
  | cons a t ih =>
    intro h
    rcases List.mem_cons.mp h with h1 | h1
    · simp [← h1]
    · have := ih h1
      simp only [List.sum_cons]
      omega

/-- Setting an in-range position to 1 puts 1 into the list. -/
theorem one_mem_set_one : ∀ (l : List Nat) (j : Nat), j < l.length → (1:Nat) ∈ l.set j 1 := by
  intro l
  induction l with
  | nil =>
    intro j h
    simp at h
  | cons a t ih =>
    intro j h
    cases j with
    | zero => simp
    | succ k =>
      have hk := ih k (by simpa using Nat.lt_of_succ_lt_succ h)
      simp [List.set, hk]

/-- Setting a position to 1 preserves the bound-by-1 property. -/
theorem set_one_le_one : ∀ (l : List Nat) (j : Nat), (∀ x ∈ l, x ≤ 1) →
    ∀ x ∈ l.set j 1, x ≤ 1 := by
  intro l
  induction l with
  | nil =>
    intro j _ x hx
    simp at hx
  | cons a t ih =>
    intro j h x hx
    cases j with
    | zero =>
      rcases List.mem_cons.mp hx with h1 | h1
      · omega
      · exact h x (by simp [h1])
    | succ k =>
      rcases List.mem_cons.mp hx with h1 | h1
      · exact h x (by simp [h1])
      · exact ih k (fun y hy => h y (by simp [hy])) x h1

/-- When `sum(code) - 1` is in range, the short-code wiring maps the button
at that index to WIN and every other button to LOSE. -/
theorem morseShortWiring_spec (code : List Nat) (hc : code.sum - 1 < 4) :
    ∃ f, morseShortWiring code = some f ∧
      ∀ b, f b = (if shortCodeOrder.get? (code.sum - 1) = some b then Signal.win
                  else Signal.lose) := by
  have h4 : code.sum - 1 = 0 ∨ code.sum - 1 = 1 ∨ code.sum - 1 = 2 ∨ code.sum - 1 = 3 := by
    omega
  rcases h4 with h | h | h | h <;>
  · refine ⟨_, by unfold morseShortWiring; rw [h]; rfl, ?_⟩
    intro b
    rw [h]
    cases b <;> decide

/-- C5: for every valid symbol tape (4 binary symbols, at least one 1), the
short-code wiring designates exactly the button at index
`(sum(symbols) − 1) mod 4` of the fixed order
{up-left, down-right, up-right, down-left} as the WIN button and wires every
other button to LOSE; in particular for `symbols = [0,1,0,0]` the up-left
button wins and any other button loses. -/
theorem morse_short_wiring_correct (code : List Nat) (hlen : code.length = 4)
    (hbin : ∀ x ∈ code, x ≤ 1) (hone : 1 ≤ code.sum) :
    (∃ f, morseShortWiring code = some f ∧
        (∀ b, f b = Signal.win ↔ shortCodeOrder.get? ((code.sum - 1) % 4) = some b) ∧
        (∀ b, f b = Signal.lose ↔ shortCodeOrder.get? ((code.sum - 1) % 4) ≠ some b)) ∧
    (∃ g, morseShortWiring [0, 1, 0, 0] = some g ∧
        g ButtonId.upLeft = Signal.win ∧
        ∀ b, b ≠ ButtonId.upLeft → g b = Signal.lose) := by
  have hsum4 : code.sum ≤ 4 := by
    have := sum_le_length_of_le_one code hbin
    omega
  have hc : code.sum - 1 < 4 := by omega
  have hmod : (code.sum - 1) % 4 = code.sum - 1 := Nat.mod_eq_of_lt hc
  obtain ⟨f, hf, hfb⟩ := morseShortWiring_spec code hc
  constructor
  · refine ⟨f, hf, ?_, ?_⟩
    · intro b
      rw [hmod, hfb b]
      by_cases hb : shortCodeOrder.get? (code.sum - 1) = some b <;> simp [hb]
    · intro b
      rw [hmod, hfb b]
      by_cases hb : shortCodeOrder.get? (code.sum - 1) = some b <;> simp [hb]
  · refine ⟨fun b => if b = ButtonId.upLeft then Signal.win else Signal.lose, rfl, rfl, ?_⟩
    intro b hb
    cases b
    · exact absurd rfl hb
    · rfl
    · rfl
    · rfl

/-- Witness for C5 at the concrete tape `[0,1,0,0]`. -/
theorem morse_short_wiring_correct_witness :
    ([0, 1, 0, 0] : List Nat).length = 4 ∧
    (∀ x ∈ ([0, 1, 0, 0] : List Nat), x ≤ 1) ∧
    1 ≤ ([0, 1, 0, 0] : List Nat).sum ∧
    ((∃ f, morseShortWiring [0, 1, 0, 0] = some f ∧
        (∀ b, f b = Signal.win ↔
          shortCodeOrder.get? ((([0, 1, 0, 0] : List Nat).sum - 1) % 4) = some b) ∧
        (∀ b, f b = Signal.lose ↔
          shortCodeOrder.get? ((([0, 1, 0, 0] : List Nat).sum - 1) % 4) ≠ some b)) ∧
     (∃ g, morseShortWiring [0, 1, 0, 0] = some g ∧
        g ButtonId.upLeft = Signal.win ∧
        ∀ b, b ≠ ButtonId.upLeft → g b = Signal.lose)) :=
  ⟨by decide, by decide, by decide,
   morse_short_wiring_correct [0, 1, 0, 0] (by decide) (by decide) (by decide)⟩

/-- C9: whatever the four binary draws and the in-range index draw are, the
generated tape contains at least one 1, so `sum(symbols) - 1` lies in `0..3`
and indexes the 4-element button list in bounds. -/
theorem morse_tape_inbounds (draws : List Nat) (j : Nat)
    (hlen : draws.length = 4) (hj : j < 4) (hbin : ∀ x ∈ draws, x ≤ 1) :
    1 ∈ morseCodeGen draws j ∧
    1 ≤ (morseCodeGen draws j).sum ∧
    (morseCodeGen draws j).sum - 1 < 4 ∧
    (shortCodeOrder.get? ((morseCodeGen draws j).sum - 1)).isSome = true := by
  have hmem : (1:Nat) ∈ morseCodeGen draws j :=
    one_mem_set_one draws j (by omega)
  have hsum1 : 1 ≤ (morseCodeGen draws j).sum :=
    one_le_sum_of_one_mem _ hmem
  have hb2 : ∀ x ∈ morseCodeGen draws j, x ≤ 1 := set_one_le_one draws j hbin
  have hlen2 : (morseCodeGen draws j).length = 4 := by
    simp [morseCodeGen, hlen]
  have hsum4 : (morseCodeGen draws j).sum ≤ 4 := by
    have := sum_le_length_of_le_one _ hb2
    omega
  have hc : (morseCodeGen draws j).sum - 1 < 4 := by omega
  refine ⟨hmem, hsum1, hc, ?_⟩
  have h4 : (morseCodeGen draws j).sum - 1 = 0 ∨ (morseCodeGen draws j).sum - 1 = 1 ∨
      (morseCodeGen draws j).sum - 1 = 2 ∨ (morseCodeGen draws j).sum - 1 = 3 := by omega
  rcases h4 with h | h | h | h <;> rw [h] <;> rfl

/-- Witness for C9 with draws `[0,0,0,0]` (all-zero randomness) and index 2. -/
theorem morse_tape_inbounds_witness :
    ([0, 0, 0, 0] : List Nat).length = 4 ∧
    2 < 4 ∧
    (∀ x ∈ ([0, 0, 0, 0] : List Nat), x ≤ 1) ∧
    (1 ∈ morseCodeGen [0, 0, 0, 0] 2 ∧
     1 ≤ (morseCodeGen [0, 0, 0, 0] 2).sum ∧
     (morseCodeGen [0, 0, 0, 0] 2).sum - 1 < 4 ∧
     (shortCodeOrder.get? ((morseCodeGen [0, 0, 0, 0] 2).sum - 1)).isSome = true) :=
  ⟨by decide, by decide, by decide,
   morse_tape_inbounds [0, 0, 0, 0] 2 (by decide) (by decide) (by decide)⟩
